import Mathlib

/-!
Verification of the change-detection and dispatch pipeline of watcher-cli.

The Go sources are shallowly embedded:
* Go maps are association lists (`List (κ × ν)`); iteration order, which Go
  leaves unspecified, is fixed to list order.
* `time.Time` values are their `UnixNano` integer (the Go zero `Time` is
  modelled as `0`); `time.Duration` values are integer nanoseconds.
* Filesystem paths handled by the differ/matcher are strings; the filesystem
  touched by the copy/move runners is modelled explicitly further below.
-/

namespace WatcherCli


/-- Lookup in an association list; mirrors Go map indexing (`m[k]`),
returning the binding produced by the most recent overwrite (see `insertA`). -/
def lookupA {α β : Type} [DecidableEq α] : List (α × β) → α → Option β
  | [], _ => none
  | kv :: rest, x => if kv.1 = x then some kv.2 else lookupA rest x

/-- Insert-or-replace in an association list; mirrors Go map assignment
(`m[k] = v`). The existing binding, if any, is replaced in place. -/
def insertA {α β : Type} [DecidableEq α] (m : List (α × β)) (k : α) (v : β) :
    List (α × β) :=
  if (lookupA m k).isSome then
    m.map (fun kv => if kv.1 = k then (kv.1, v) else kv)
  else
    m ++ [(k, v)]

/-- Remove a key from an association list; mirrors Go `delete(m, k)`
(a no-op when the key is absent). -/
def eraseKeyA {α β : Type} [DecidableEq α] (m : List (α × β)) (k : α) :
    List (α × β) :=
  m.filter (fun kv => kv.1 ≠ k)

/-! ### scanner package: file metadata, snapshots and events -/

/-- FileInfo from `scanner` (part_005): size, modification time (UnixNano),
is-directory flag and mode bits. -/
structure FileInfo where
  size : Int
  modTimeNs : Int
  isDir : Bool
  mode : Nat
deriving DecidableEq, Repr

/-- Snapshot maps absolute paths to file info (`scanner.Snapshot`). -/
abbrev Snapshot := List (String × FileInfo)

/-- Event from `scanner` (part_005): a change detected between snapshots.
Fields left unset by the Go code carry Go zero values (empty string, 0). -/
structure Event where
  path : String
  relPath : String
  prevPath : String
  type : String
  info : FileInfo
  ageNs : Int
deriving DecidableEq, Repr

/-- hasChanged from `scanner`: size, modification instant or mode differ. -/
def hasChanged (prev curr : FileInfo) : Bool :=
  prev.size ≠ curr.size || prev.modTimeNs ≠ curr.modTimeNs || prev.mode ≠ curr.mode

/-- signature from `scanner`: the cheap (size, mtime-UnixNano, mode) tuple.
The Go code renders it as the string `size-unixnano-octalmode`; the rendering
is injective on the triple, so the triple itself is used as the key. -/
def signature (info : FileInfo) : Int × Int × Nat :=
  (info.size, info.modTimeNs, info.mode)

/-- rel from `scanner`: `filepath.Rel(root, path)`, modelled lexically — when
`path` lives under `root` the root prefix is stripped, otherwise (Rel errors)
the path is returned unchanged. -/
def rel (root path : String) : String :=
  if (root.data ++ ['/']).isPrefixOf path.data then
    String.mk (path.data.drop (root.data.length + 1))
  else path

/-- age from `scanner`: `time.Since(ModTime)`, with the Go zero `Time`
(modelled as 0) mapped to age 0. The wall clock is the explicit `now`. -/
def age (now : Int) (info : FileInfo) : Int :=
  if info.modTimeNs = 0 then 0 else now - info.modTimeNs

/-- Delete event as built in Diff's first loop (Age left at its zero value). -/
def mkDelete (root p : String) (info : FileInfo) : Event :=
  { path := p, relPath := rel root p, prevPath := "", type := "delete"
    info := info, ageNs := 0 }

/-- Modify event as built in Diff's second loop. -/
def mkModify (now : Int) (root p : String) (info : FileInfo) : Event :=
  { path := p, relPath := rel root p, prevPath := "", type := "modify"
    info := info, ageNs := age now info }

/-- Move event as built in Diff's second loop. -/
def mkMove (now : Int) (root p oldPath : String) (info : FileInfo) : Event :=
  { path := p, relPath := rel root p, prevPath := oldPath, type := "move"
    info := info, ageNs := age now info }

/-- Create event as built in Diff's second loop. -/
def mkCreate (now : Int) (root p : String) (info : FileInfo) : Event :=
  { path := p, relPath := rel root p, prevPath := "", type := "create"
    info := info, ageNs := age now info }

/-- First loop of `scanner.Diff`: one pass over `prev` that simultaneously
registers every previous path in the signature table (later entries overwrite
earlier ones on signature collision, as in the Go map) and records a tentative
delete for every path absent from `curr`. -/
def prevPass (root : String) (prev curr : Snapshot) :
    List ((Int × Int × Nat) × String) × List (String × Event) :=
  prev.foldl
    (fun acc pi =>
      (insertA acc.1 (signature pi.2) pi.1,
       if (lookupA curr pi.1).isSome then acc.2
       else acc.2 ++ [(pi.1, mkDelete root pi.1 pi.2)]))
    ([], [])

/-- Second loop of `scanner.Diff`: one pass over `curr`, threading the
(modifies, moves, creates, tentative deletes) accumulator exactly as the Go
loop appends to its slices and erases reclaimed deletes. -/
def currPass (now : Int) (root : String) (prev : Snapshot)
    (sigMap : List ((Int × Int × Nat) × String)) :
    List (String × FileInfo) →
    List Event × List Event × List Event × List (String × Event) →
    List Event × List Event × List Event × List (String × Event)
  | [], acc => acc
  | (p, info) :: restCurr, (ms, mv, cs, ds) =>
    match lookupA prev p with
    | some prevInfo =>
      if hasChanged prevInfo info then
        currPass now root prev sigMap restCurr (ms ++ [mkModify now root p info], mv, cs, ds)
      else
        currPass now root prev sigMap restCurr (ms, mv, cs, ds)
    | none =>
      match lookupA sigMap (signature info) with
      | some oldPath =>
        if oldPath ≠ p then
          currPass now root prev sigMap restCurr
            (ms, mv ++ [mkMove now root p oldPath info], cs, eraseKeyA ds oldPath)
        else
          currPass now root prev sigMap restCurr
            (ms, mv, cs ++ [mkCreate now root p info], ds)
      | none =>
        currPass now root prev sigMap restCurr
          (ms, mv, cs ++ [mkCreate now root p info], ds)

/-- Diff from `scanner` (part_005): compares previous and current snapshots
and emits modifies, then moves, then creates, then surviving deletes. -/
def Diff (now : Int) (root : String) (prev curr : Snapshot) : List Event :=
  let pp := prevPass root prev curr
  let res := currPass now root prev pp.1 curr ([], [], [], pp.2)
  res.1 ++ res.2.1 ++ res.2.2.1 ++ res.2.2.2.map (fun kv => kv.2)

/-! ### Characterizations of the two Diff loops

The loops are re-expressed accumulator-free, so that membership reasoning
becomes possible. These definitions are *derived* forms, related to the
embedded code by the `prevPass_spec` / `currPass_spec` lemmas below. -/

/-- Signature table Diff ends up with: built from every previous path
(not only delete candidates), later paths overwriting earlier ones. -/
def sigTable (prev : Snapshot) : List ((Int × Int × Nat) × String) :=
  prev.foldl (fun m pi => insertA m (signature pi.2) pi.1) []

/-- Tentative deletes after the first loop: previous paths absent from curr. -/
def deletesOf (root : String) (prev curr : Snapshot) : List (String × Event) :=
  prev.filterMap (fun pi =>
    if (lookupA curr pi.1).isSome then none
    else some (pi.1, mkDelete root pi.1 pi.2))

/-- Modify events the second loop produces, accumulator-free. -/
def modsOf (now : Int) (root : String) (prev : Snapshot)
    (l : List (String × FileInfo)) : List Event :=
  l.filterMap (fun pi =>
    match lookupA prev pi.1 with
    | some prevInfo =>
      if hasChanged prevInfo pi.2 then some (mkModify now root pi.1 pi.2) else none
    | none => none)

/-- Move events the second loop produces, accumulator-free. -/
def movesOf (now : Int) (root : String) (prev : Snapshot)
    (sigMap : List ((Int × Int × Nat) × String))
    (l : List (String × FileInfo)) : List Event :=
  l.filterMap (fun pi =>
    match lookupA prev pi.1 with
    | some _ => none
    | none =>
      match lookupA sigMap (signature pi.2) with
      | some oldPath =>
        if oldPath ≠ pi.1 then some (mkMove now root pi.1 oldPath pi.2) else none
      | none => none)

/-- Create events the second loop produces, accumulator-free. -/
def createsOf (now : Int) (root : String) (prev : Snapshot)
    (sigMap : List ((Int × Int × Nat) × String))
    (l : List (String × FileInfo)) : List Event :=
  l.filterMap (fun pi =>
    match lookupA prev pi.1 with
    | some _ => none
    | none =>
      match lookupA sigMap (signature pi.2) with
      | some oldPath =>
        if oldPath ≠ pi.1 then none else some (mkCreate now root pi.1 pi.2)
      | none => some (mkCreate now root pi.1 pi.2))

/-- Surviving tentative deletes after the second loop erased reclaimed ones. -/
def delsAfter (prev : Snapshot) (sigMap : List ((Int × Int × Nat) × String)) :
    List (String × FileInfo) → List (String × Event) → List (String × Event)
  | [], ds => ds
  | pi :: restCurr, ds =>
    match lookupA prev pi.1 with
    | some _ => delsAfter prev sigMap restCurr ds
    | none =>
      match lookupA sigMap (signature pi.2) with
      | some oldPath =>
        if oldPath ≠ pi.1 then delsAfter prev sigMap restCurr (eraseKeyA ds oldPath)
        else delsAfter prev sigMap restCurr ds
      | none => delsAfter prev sigMap restCurr ds

/-! ### Claims about the Differ -/

/-! ### Worker debounce (watcher.go, handleEvent lines 108-118) -/

/-- Debounce-clearing tail of handleEvent (watcher.go lines 116-118): after
the debounce check, a delete event removes the path's debounce entry. The
Bool records whether the event proceeds to matching and dispatch. -/
def debClear (ev : Event) (m : List (String × Int)) :
    Bool × List (String × Int) :=
  (true, if ev.type = "delete" then eraseKeyA m ev.path else m)

/-- Debounce prefix of handleEvent (watcher.go lines 109-118): with a
positive debounce window, an event whose path last triggered within the
window is dropped (early return) before the delete-clearing step; otherwise
the path's timestamp is set to now and the event proceeds. Times are integer
nanoseconds; `nowNs - last` models `time.Since(last)`. -/
def handleEventDebounce (debounceNs nowNs : Int) (m : List (String × Int))
    (ev : Event) : Bool × List (String × Int) :=
  if 0 < debounceNs then
    match lookupA m ev.path with
    | some last =>
      if nowNs - last < debounceNs then (false, m)
      else debClear ev (insertA m ev.path nowNs)
    | none => debClear ev (insertA m ev.path nowNs)
  else debClear ev m

/-! ### actions package: filesystem model, copy/move runners, Executor

The filesystem touched by the copy/move runners (part_003) is modelled as a
map from paths to file contents plus a set of existing directories. Paths are
segment lists; contents are byte lists. Failures that depend only on the
machine environment rather than on this state — `os.Rename` refusing a
cross-device move, `os.Remove` failing — are oracles in `FsEnv`. -/

/-- Filesystem path as a list of segments. -/
abbrev FPath := List String

/-- Filesystem state: regular files with contents, and directories. -/
structure FS where
  files : List (FPath × List Nat)
  dirs : List FPath
deriving DecidableEq, Repr

/-- Environment oracle for the failure modes of `os.Rename` and `os.Remove`
that do not depend on the modelled filesystem state. -/
structure FsEnv where
  renameErr : Option String
  removeErr : Option String
deriving DecidableEq, Repr

/-- os.Stat-style existence check: a file or a directory at the path. -/
def statExists (fs : FS) (p : FPath) : Bool :=
  (lookupA fs.files p).isSome || decide (p ∈ fs.dirs)

/-- filepath.Dir: the containing directory of a path. -/
def parentDir (p : FPath) : FPath := p.dropLast

/-- All nonempty prefixes of a directory path, i.e. every directory that
`os.MkdirAll` has to create or find. -/
def ancestors (p : FPath) : List FPath :=
  (List.range p.length).map (fun n => p.take (n + 1))

/-- os.MkdirAll: fails when a regular file sits where a directory is needed,
otherwise records every prefix as an existing directory. -/
def mkdirAll (fs : FS) (d : FPath) : FS × Option String :=
  if (ancestors d).any (fun q => (lookupA fs.files q).isSome) then
    (fs, some "mkdir: not a directory")
  else ({ fs with dirs := fs.dirs ++ ancestors d }, none)

/-- Write a file's content (create or truncate). -/
def setFile (fs : FS) (p : FPath) (c : List Nat) : FS :=
  { fs with files := insertA fs.files p c }

/-- os.Create followed by io.Copy: fails on a directory, otherwise writes. -/
def createFile (fs : FS) (p : FPath) (c : List Nat) : FS × Option String :=
  if p ∈ fs.dirs then (fs, some "is a directory") else (setFile fs p c, none)

/-- copyFile from part_003 (lines 42-65): overwrite/existence check first,
then MkdirAll of the destination's parent, then open-source / create-dest /
copy-bytes. -/
def copyFile (fs : FS) (src dest : FPath) (overwrite : Bool) :
    FS × Option String :=
  if !overwrite && statExists fs dest then (fs, some "dest exists")
  else
    match mkdirAll fs (parentDir dest) with
    | (fs1, some e) => (fs1, some e)
    | (fs1, none) =>
      match lookupA fs1.files src with
      | none => (fs1, some "open source: no such file")
      | some c => createFile fs1 dest c

/-- os.Rename: environment oracle may refuse (e.g. cross-device); otherwise
the source entry is moved to the destination atomically. -/
def renameFile (env : FsEnv) (fs : FS) (src dest : FPath) :
    FS × Option String :=
  match env.renameErr with
  | some e => (fs, some e)
  | none =>
    match lookupA fs.files src with
    | none => (fs, some "rename: no such file")
    | some c => (setFile { fs with files := eraseKeyA fs.files src } dest c, none)

/-- os.Remove: environment oracle may refuse; otherwise the file is removed. -/
def removeFile (env : FsEnv) (fs : FS) (src : FPath) : FS × Option String :=
  match env.removeErr with
  | some e => (fs, some e)
  | none => ({ fs with files := eraseKeyA fs.files src }, none)

/-- moveFile from part_003 (lines 67-84): overwrite/existence check, MkdirAll,
atomic rename attempt, and on rename failure the copy-then-delete-source
fallback. A failed rename leaves the filesystem untouched. -/
def moveFile (env : FsEnv) (fs : FS) (src dest : FPath) (overwrite : Bool) :
    FS × Option String :=
  if !overwrite && statExists fs dest then (fs, some "dest exists")
  else
    match mkdirAll fs (parentDir dest) with
    | (fs1, some e) => (fs1, some e)
    | (fs1, none) =>
      match renameFile env fs1 src dest with
      | (fs2, none) => (fs2, none)
      | (_, some _) =>
        match copyFile fs1 src dest overwrite with
        | (fs2, some e) => (fs2, some e)
        | (fs2, none) => removeFile env fs2 src

/-- ActionType from config.go: the closed set of supported action kinds. -/
inductive ActionType where
  | exec
  | copy
  | move
  | rename
  | webhook
deriving DecidableEq, Repr

/-- CopyMoveRunner.Run from part_003 (lines 19-40): empty-destination check,
rename's relative-destination resolution, overwrite defaulting, and dispatch
to copyFile/moveFile. The destination template is modelled post-expansion
(template.Expand is pure string substitution). -/
def copyMoveRun (mode : ActionType) (env : FsEnv) (evPath : FPath)
    (evRel : String) (destTmpl : FPath) (overwrite : Option Bool) (fs : FS) :
    FS × Option String :=
  if destTmpl.isEmpty then (fs, some "empty dest")
  else
    let dest := if mode = ActionType.rename && evRel ≠ "" then
        parentDir evPath ++ destTmpl
      else destTmpl
    let ow := overwrite.getD false
    match mode with
    | ActionType.copy => copyFile fs evPath dest ow
    | ActionType.move => moveFile env fs evPath dest ow
    | ActionType.rename => moveFile env fs evPath dest ow
    | _ => (fs, some "unsupported mode")

/-- Retry loop of Executor.Execute (part_001 lines 76-92): attempts indexed
from 0, at most `fuel` of them; the first success returns immediately, and
when the budget is exhausted the last observed error is returned (Go's
nil-lastErr guard becomes the getD default). The runner threads an arbitrary
state σ, standing for the world the action's side effects live in; the
per-attempt timeout is part of the runner's possible failure. -/
def execLoop {σ : Type} (run : Nat → σ → σ × Option String) :
    Nat → Nat → σ → Option String → σ × Nat × Option String
  | attempt, 0, s, lastErr => (s, attempt, some (lastErr.getD "unknown action error"))
  | attempt, fuel + 1, s, _ =>
    match run attempt s with
    | (s1, some e) => execLoop run (attempt + 1) fuel s1 (some e)
    | (s1, none) => (s1, attempt + 1, none)

/-- Executor.Execute from part_001 (lines 64-93): the dry-run check precedes
the retry loop and every runner invocation (the registry lookup before it is
total for the closed ActionType set and has no side effect). Returns final
state, number of attempts actually made, and the outcome error. -/
def Execute {σ : Type} (dryRun : Bool) (run : Nat → σ → σ × Option String)
    (retries : Nat) (s : σ) : σ × Nat × Option String :=
  if dryRun then (s, 0, none) else execLoop run 0 (retries + 1) s none

/-! ### config and match packages: action filters -/

/-- Condition from config.go: numeric and age bounds plus the file/dir and
hidden-path flags. MillisDuration fields carry milliseconds. -/
structure Condition where
  minSizeBytes : Int
  maxSizeBytes : Int
  minAgeMs : Int
  maxAgeMs : Int
  onlyFiles : Bool
  onlyDirs : Bool
  ignoreHidden : Option Bool
deriving DecidableEq, Repr

/-- Action from config.go: the fields the matcher and executor consult (the
env map is omitted; it only feeds exec's process environment). -/
structure Action where
  name : String
  type : ActionType
  includeGlobs : List String
  excludeGlobs : List String
  events : List String
  dest : String
  cmd : String
  url : String
  cwd : String
  timeoutMs : Int
  retries : Int
  overwrite : Option Bool
  condition : Condition
deriving Repr

/-- Watch from config.go: the per-directory fields the matcher consults. -/
structure Watch where
  path : String
  recursive : Bool
  scanIntervalMs : Int
  debounceMs : Int
  stopOnFirstMatch : Bool
  actions : List Action
deriving Repr

/-- MillisDuration.Duration() from config.go: milliseconds to nanoseconds. -/
def millisToNs (ms : Int) : Int := ms * 1000000

/-- eventAllowed from match.go: the event's type is a member of the action's
allowed event kinds (the Go code materializes the list as a set first;
membership coincides). -/
def eventAllowed (ev : Event) (a : Action) : Bool :=
  a.events.contains ev.type

/-- Action.MatchesInclude from config.go: absence of include patterns means
match-all; glob matching (the external doublestar.PathMatch library) is the
abstract parameter `pm pattern path`; filepath.ToSlash is the identity on the
slash-separated paths used here. -/
def matchesInclude (pm : String → String → Bool) (a : Action)
    (relPath : String) : Bool :=
  if a.includeGlobs.isEmpty then true
  else a.includeGlobs.any (fun pattern => pm pattern relPath)

/-- Action.MatchesExclude from config.go: no exclude patterns excludes
nothing. -/
def matchesExclude (pm : String → String → Bool) (a : Action)
    (relPath : String) : Bool :=
  if a.excludeGlobs.isEmpty then false
  else a.excludeGlobs.any (fun pattern => pm pattern relPath)

/-- strings.Split on the path separator, modelled on the character list. -/
def splitSeg : List Char → List (List Char)
  | [] => [[]]
  | c :: rest =>
    if c = '/' then [] :: splitSeg rest
    else
      match splitSeg rest with
      | [] => [[c]]
      | s :: ss => (c :: s) :: ss

/-- isHidden from match.go: some nonempty path component starts with a dot
(strings.HasPrefix with "." is a first-character test). -/
def isHidden (relPath : String) : Bool :=
  (splitSeg relPath.data).any (fun part =>
    match part with
    | [] => false
    | ch :: _ => ch = '.')

/-- conditionsPass from match.go (lines 52-77): each bound filters only when
strictly positive; only-files/only-dirs agreement; hidden-path exclusion when
the pointer-valued flag is set and true. -/
def conditionsPass (ev : Event) (c : Condition) : Bool :=
  if 0 < c.minSizeBytes ∧ ev.info.size < c.minSizeBytes then false
  else if 0 < c.maxSizeBytes ∧ c.maxSizeBytes < ev.info.size then false
  else if 0 < millisToNs c.minAgeMs ∧ ev.ageNs < millisToNs c.minAgeMs then false
  else if 0 < millisToNs c.maxAgeMs ∧ millisToNs c.maxAgeMs < ev.ageNs then false
  else if c.onlyFiles ∧ ev.info.isDir then false
  else if c.onlyDirs ∧ ¬ ev.info.isDir then false
  else if c.ignoreHidden = some true then
    if isHidden ev.relPath then false else true
  else true

/-- The filter chain of Matcher.Match's loop body (match.go lines 23-34) as
one predicate: all four checks pass. -/
def actionPasses (pm : String → String → Bool) (ev : Event) (a : Action) : Bool :=
  eventAllowed ev a && matchesInclude pm a ev.relPath &&
    !matchesExclude pm a ev.relPath && conditionsPass ev a.condition

/-- The loop of Matcher.Match (match.go lines 22-39): scan the action list in
order, skip on any failed check, append on success, and break after the first
success when stop-on-first-match is set. -/
def matchLoop (pm : String → String → Bool) (ev : Event) (stop : Bool) :
    List Action → List Action
  | [] => []
  | a :: rest =>
    if !eventAllowed ev a then matchLoop pm ev stop rest
    else if !matchesInclude pm a ev.relPath then matchLoop pm ev stop rest
    else if matchesExclude pm a ev.relPath then matchLoop pm ev stop rest
    else if !conditionsPass ev a.condition then matchLoop pm ev stop rest
    else if stop then [a] else a :: matchLoop pm ev stop rest

/-- Matcher.Match from match.go (lines 20-41). -/
def Match (pm : String → String → Bool) (ev : Event) (w : Watch) : List Action :=
  matchLoop pm ev w.stopOnFirstMatch w.actions

/-! ### Theorems -/

theorem lookupA_isSome_of_mem {α β : Type} [DecidableEq α]
    {m : List (α × β)} {kv : α × β} :
    kv ∈ m → (lookupA m kv.1).isSome = true := by
  induction m with
  | nil => intro h; cases h
  | cons hd tl ih =>
    intro h
    rcases List.mem_cons.mp h with h | h
    · subst h; simp [lookupA]
    · by_cases hk : hd.1 = kv.1
      · simp [lookupA, hk]
      · simpa [lookupA, hk] using ih h

theorem lookupA_eraseKeyA_self {α β : Type} [DecidableEq α]
    (m : List (α × β)) (k : α) :
    lookupA (eraseKeyA m k) k = none := by
  induction m with
  | nil => rfl
  | cons hd tl ih =>
    by_cases hk : hd.1 = k
    · simpa [eraseKeyA, hk] using ih
    · simpa [eraseKeyA, lookupA, hk] using ih

theorem prevPass_spec (root : String) (prev curr : Snapshot) :
    prevPass root prev curr = (sigTable prev, deletesOf root prev curr) := by
  suffices h : ∀ (l : Snapshot) (m : List ((Int × Int × Nat) × String))
      (d : List (String × Event)),
      l.foldl
        (fun acc pi =>
          (insertA acc.1 (signature pi.2) pi.1,
           if (lookupA curr pi.1).isSome then acc.2
           else acc.2 ++ [(pi.1, mkDelete root pi.1 pi.2)]))
        (m, d) =
      (l.foldl (fun m2 pi => insertA m2 (signature pi.2) pi.1) m,
       d ++ l.filterMap (fun pi =>
        if (lookupA curr pi.1).isSome then none
        else some (pi.1, mkDelete root pi.1 pi.2))) by
    simpa [prevPass, sigTable, deletesOf] using h prev [] []
  intro l
  induction l with
  | nil => intro m d; simp
  | cons hd tl ih =>
    intro m d
    by_cases hc : (lookupA curr hd.1).isSome
    · simp only [List.foldl_cons, List.filterMap_cons, hc, if_pos, ih]
    · simp only [List.foldl_cons, List.filterMap_cons, hc, if_neg, Bool.false_eq_true,
        not_false_iff, ih]
      simp [hc]

theorem currPass_spec (now : Int) (root : String) (prev : Snapshot)
    (sigMap : List ((Int × Int × Nat) × String)) :
    ∀ (l : List (String × FileInfo)) (ms mv cs : List Event)
      (ds : List (String × Event)),
      currPass now root prev sigMap l (ms, mv, cs, ds) =
        (ms ++ modsOf now root prev l,
         mv ++ movesOf now root prev sigMap l,
         cs ++ createsOf now root prev sigMap l,
         delsAfter prev sigMap l ds) := by
  intro l
  induction l with
  | nil => intro ms mv cs ds; simp [currPass, modsOf, movesOf, createsOf, delsAfter]
  | cons hd tl ih =>
    intro ms mv cs ds
    obtain ⟨p, info⟩ := hd
    cases hprev : lookupA prev p with
    | some prevInfo =>
      by_cases hch : hasChanged prevInfo info
      · simp [currPass, hprev, hch, modsOf, movesOf, createsOf, delsAfter, ih,
          List.filterMap_cons]
      · simp [currPass, hprev, hch, modsOf, movesOf, createsOf, delsAfter, ih,
          List.filterMap_cons]
    | none =>
      cases hsig : lookupA sigMap (signature info) with
      | some oldPath =>
        by_cases hne : oldPath ≠ p
        · simp [currPass, hprev, hsig, hne, modsOf, movesOf, createsOf, delsAfter, ih,
            List.filterMap_cons]
        · simp only [not_not] at hne
          simp [currPass, hprev, hsig, hne, modsOf, movesOf, createsOf, delsAfter, ih,
            List.filterMap_cons]
      | none =>
        simp [currPass, hprev, hsig, modsOf, movesOf, createsOf, delsAfter, ih,
          List.filterMap_cons]

/-- Diff decomposed into its four accumulator-free pieces. -/
theorem Diff_eq (now : Int) (root : String) (prev curr : Snapshot) :
    Diff now root prev curr =
      modsOf now root prev curr ++
      movesOf now root prev (sigTable prev) curr ++
      createsOf now root prev (sigTable prev) curr ++
      (delsAfter prev (sigTable prev) curr (deletesOf root prev curr)).map
        (fun kv => kv.2) := by
  simp [Diff, prevPass_spec, currPass_spec]

theorem nodupKeys_mem_eq {α β : Type} {l : List (α × β)}
    (hnd : (l.map Prod.fst).Nodup) {a : α} {b c : β}
    (hb : (a, b) ∈ l) (hc : (a, c) ∈ l) : b = c := by
  induction l with
  | nil => cases hb
  | cons hd tl ih =>
    rw [List.map_cons, List.nodup_cons] at hnd
    rcases List.mem_cons.mp hb with hb | hb <;> rcases List.mem_cons.mp hc with hc | hc
    · rw [← hb] at hc
      exact ((Prod.mk.injEq _ _ _ _).mp hc.symm).2
    · exfalso; apply hnd.1; rw [← hb]
      simpa using List.mem_map_of_mem Prod.fst hc
    · exfalso; apply hnd.1; rw [← hc]
      simpa using List.mem_map_of_mem Prod.fst hb
    · exact ih hnd.2 hb hc

theorem mem_movesOf_inv {now : Int} {root : String} {prev : Snapshot}
    {sigMap : List ((Int × Int × Nat) × String)} {l : List (String × FileInfo)}
    {e : Event} (h : e ∈ movesOf now root prev sigMap l) :
    ∃ pi oldPath, pi ∈ l ∧ lookupA prev pi.1 = none ∧
      lookupA sigMap (signature pi.2) = some oldPath ∧ oldPath ≠ pi.1 ∧
      e = mkMove now root pi.1 oldPath pi.2 := by
  obtain ⟨pi, hpi, hfn⟩ := List.mem_filterMap.mp h
  split at hfn
  · cases hfn
  · split at hfn
    · split at hfn
      · exact ⟨pi, _, hpi, by assumption, by assumption, by assumption,
          ((Option.some.injEq _ _).mp hfn).symm⟩
      · cases hfn
    · cases hfn

theorem mem_createsOf_inv {now : Int} {root : String} {prev : Snapshot}
    {sigMap : List ((Int × Int × Nat) × String)} {l : List (String × FileInfo)}
    {e : Event} (h : e ∈ createsOf now root prev sigMap l) :
    ∃ pi, pi ∈ l ∧ lookupA prev pi.1 = none ∧
      e = mkCreate now root pi.1 pi.2 ∧
      (lookupA sigMap (signature pi.2) = none ∨
       lookupA sigMap (signature pi.2) = some pi.1) := by
  obtain ⟨pi, hpi, hfn⟩ := List.mem_filterMap.mp h
  split at hfn
  · cases hfn
  · split at hfn
    · split at hfn
      · cases hfn
      · refine ⟨pi, hpi, by assumption, ((Option.some.injEq _ _).mp hfn).symm, Or.inr ?_⟩
        rename_i hsig hne
        rw [not_not] at hne
        rw [hne] at hsig
        exact hsig
    · exact ⟨pi, hpi, by assumption, ((Option.some.injEq _ _).mp hfn).symm,
        Or.inl (by assumption)⟩

theorem type_of_mem_modsOf {now : Int} {root : String} {prev : Snapshot}
    {l : List (String × FileInfo)} {e : Event}
    (h : e ∈ modsOf now root prev l) : e.type = "modify" := by
  obtain ⟨pi, _, hfn⟩ := List.mem_filterMap.mp h
  split at hfn
  · split at hfn
    · rw [← (Option.some.injEq _ _).mp hfn]
      rfl
    · cases hfn
  · cases hfn

theorem mem_delsAfter_sub {prev : Snapshot}
    {sigMap : List ((Int × Int × Nat) × String)} :
    ∀ {l : List (String × FileInfo)} {ds : List (String × Event)}
      {x : String × Event}, x ∈ delsAfter prev sigMap l ds → x ∈ ds := by
  intro l
  induction l with
  | nil => intro ds x h; exact h
  | cons hd tl ih =>
    intro ds x h
    rw [delsAfter] at h
    split at h
    · exact ih h
    · split at h
      · split at h
        · exact List.mem_of_mem_filter (ih h)
        · exact ih h
      · exact ih h

theorem type_of_mem_deletesOf {root : String} {prev curr : Snapshot}
    {x : String × Event} (h : x ∈ deletesOf root prev curr) :
    x.2.type = "delete" := by
  obtain ⟨pi, _, hfn⟩ := List.mem_filterMap.mp h
  split at hfn
  · cases hfn
  · rw [← (Option.some.injEq _ _).mp hfn]
    rfl

theorem type_of_mem_movesOf {now : Int} {root : String} {prev : Snapshot}
    {sigMap : List ((Int × Int × Nat) × String)} {l : List (String × FileInfo)}
    {e : Event} (h : e ∈ movesOf now root prev sigMap l) : e.type = "move" := by
  obtain ⟨pi, oldPath, _, _, _, _, heq⟩ := mem_movesOf_inv h
  rw [heq]; rfl

theorem type_of_mem_createsOf {now : Int} {root : String} {prev : Snapshot}
    {sigMap : List ((Int × Int × Nat) × String)} {l : List (String × FileInfo)}
    {e : Event} (h : e ∈ createsOf now root prev sigMap l) : e.type = "create" := by
  obtain ⟨pi, _, _, heq, _⟩ := mem_createsOf_inv h
  rw [heq]; rfl

theorem type_of_mem_delsPart {root : String} {prev curr : Snapshot}
    {e : Event}
    (h : e ∈ (delsAfter prev (sigTable prev) curr (deletesOf root prev curr)).map
      (fun kv => kv.2)) : e.type = "delete" := by
  obtain ⟨x, hx, hex⟩ := List.mem_map.mp h
  rw [← hex]
  exact type_of_mem_deletesOf (mem_delsAfter_sub hx)

theorem delsAfter_nil {prev : Snapshot}
    {sigMap : List ((Int × Int × Nat) × String)} :
    ∀ l : List (String × FileInfo), delsAfter prev sigMap l [] = [] := by
  intro l
  induction l with
  | nil => rfl
  | cons hd tl ih =>
    rw [delsAfter]
    split
    · exact ih
    · split
      · split
        · rw [eraseKeyA, List.filter_nil]; exact ih
        · exact ih
      · exact ih

theorem mem_movesOf_intro {now : Int} {root : String} {prev : Snapshot}
    {sigMap : List ((Int × Int × Nat) × String)} {l : List (String × FileInfo)}
    {p oldPath : String} {info : FileInfo}
    (hmem : (p, info) ∈ l) (hprev : lookupA prev p = none)
    (hsig : lookupA sigMap (signature info) = some oldPath) (hne : oldPath ≠ p) :
    mkMove now root p oldPath info ∈ movesOf now root prev sigMap l := by
  refine List.mem_filterMap.mpr ⟨(p, info), hmem, ?_⟩
  simp [hprev, hsig, hne]

/-- C1 counterexample. The previous snapshot holds only `r/a`; the current
snapshot still holds `r/a` (so there is no delete candidate at all) plus a new
path `r/b` whose metadata matches `r/a`'s signature. The claim requires `r/b`
to be emitted as a create, but Diff emits a move whose PrevPath is the
still-present path `r/a`. -/
theorem diff_spurious_move_cex :
    lookupA ([("r/a", ⟨3, 7, false, 420⟩), ("r/b", ⟨3, 7, false, 420⟩)] : Snapshot)
        "r/a" = some ⟨3, 7, false, 420⟩ ∧
    (∀ pi ∈ ([("r/a", ⟨3, 7, false, 420⟩)] : Snapshot),
      (lookupA ([("r/a", ⟨3, 7, false, 420⟩), ("r/b", ⟨3, 7, false, 420⟩)] : Snapshot)
        pi.1).isSome = true) ∧
    Diff 100 "r" [("r/a", ⟨3, 7, false, 420⟩)]
        [("r/a", ⟨3, 7, false, 420⟩), ("r/b", ⟨3, 7, false, 420⟩)] =
      [{ path := "r/b", relPath := "b", prevPath := "r/a", type := "move",
         info := ⟨3, 7, false, 420⟩, ageNs := 93 }] := by
  decide

/-- C1 (amended): a path present only in `curr` is classified as a move
exactly when the signature table built from ALL previous paths — delete
candidates or not, later entries overwriting earlier ones — maps its
signature to a previous path different from it (and then no create is
emitted for it); when the table misses, or hits the path itself, a create is
emitted and no move. -/
theorem diff_move_classification (now : Int) (root : String) (prev curr : Snapshot)
    (p : String) (info : FileInfo)
    (hmem : (p, info) ∈ curr)
    (hnew : lookupA prev p = none)
    (hnd : (curr.map Prod.fst).Nodup) :
    (∀ oldPath, lookupA (sigTable prev) (signature info) = some oldPath →
       oldPath ≠ p →
       mkMove now root p oldPath info ∈ Diff now root prev curr ∧
       ∀ e ∈ Diff now root prev curr, e.type = "create" → e.path ≠ p) ∧
    ((∀ oldPath, lookupA (sigTable prev) (signature info) = some oldPath →
        oldPath = p) →
       mkCreate now root p info ∈ Diff now root prev curr ∧
       ∀ e ∈ Diff now root prev curr, e.type = "move" → e.path ≠ p) := by
  constructor
  · intro oldPath hsig hne
    constructor
    · rw [Diff_eq]
      exact List.mem_append_left _ (List.mem_append_left _
        (List.mem_append_right _ (mem_movesOf_intro hmem hnew hsig hne)))
    · intro e he hty
      rw [Diff_eq] at he
      rcases List.mem_append.mp he with he | hdel
      · rcases List.mem_append.mp he with he | hcr
        · rcases List.mem_append.mp he with hmo | hmv
          · have := type_of_mem_modsOf hmo
            rw [hty] at this
            exact absurd this (by decide)
          · have := type_of_mem_movesOf hmv
            rw [hty] at this
            exact absurd this (by decide)
        · intro hpath
          obtain ⟨pi, hpi, _, heq, hdisj⟩ := mem_createsOf_inv hcr
          have hp1 : pi.1 = p := by rw [heq] at hpath; exact hpath
          have hpi2 : (p, pi.2) ∈ curr := by rw [← hp1, Prod.mk.eta]; exact hpi
          have hinfo : pi.2 = info := nodupKeys_mem_eq hnd hpi2 hmem
          rw [hinfo] at hdisj
          rcases hdisj with hd | hd
          · rw [hsig] at hd; cases hd
          · rw [hsig, hp1] at hd
            exact hne ((Option.some.injEq _ _).mp hd)
      · have := type_of_mem_delsPart hdel
        rw [hty] at this
        exact absurd this (by decide)
  · intro hself
    constructor
    · rw [Diff_eq]
      have hc : mkCreate now root p info ∈
          createsOf now root prev (sigTable prev) curr := by
        refine List.mem_filterMap.mpr ⟨(p, info), hmem, ?_⟩
        cases hsig : lookupA (sigTable prev) (signature info) with
        | none => simp [hnew, hsig]
        | some oldPath =>
          have := hself oldPath hsig
          simp [hnew, hsig, this]
      exact List.mem_append_left _ (List.mem_append_right _ hc)
    · intro e he hty
      rw [Diff_eq] at he
      rcases List.mem_append.mp he with he | hdel
      · rcases List.mem_append.mp he with he | hcr
        · rcases List.mem_append.mp he with hmo | hmv
          · have := type_of_mem_modsOf hmo
            rw [hty] at this
            exact absurd this (by decide)
          · intro hpath
            obtain ⟨pi, oldPath, hpi, _, hsig2, hne2, heq⟩ := mem_movesOf_inv hmv
            have hp1 : pi.1 = p := by rw [heq] at hpath; exact hpath
            have hpi2 : (p, pi.2) ∈ curr := by rw [← hp1, Prod.mk.eta]; exact hpi
            have hinfo : pi.2 = info := nodupKeys_mem_eq hnd hpi2 hmem
            rw [hinfo] at hsig2
            exact hne2 ((hself oldPath hsig2).trans hp1.symm)
        · have := type_of_mem_createsOf hcr
          rw [hty] at this
          exact absurd this (by decide)
      · have := type_of_mem_delsPart hdel
        rw [hty] at this
        exact absurd this (by decide)

/-- Witness for C1 (amended) at the counterexample input: the spurious move
event is a member of the diff. -/
theorem diff_move_classification_witness :
    mkMove 100 "r" "r/b" "r/a" ⟨3, 7, false, 420⟩ ∈
      Diff 100 "r" [("r/a", ⟨3, 7, false, 420⟩)]
        [("r/a", ⟨3, 7, false, 420⟩), ("r/b", ⟨3, 7, false, 420⟩)] :=
  ((diff_move_classification 100 "r"
      [("r/a", ⟨3, 7, false, 420⟩)]
      [("r/a", ⟨3, 7, false, 420⟩), ("r/b", ⟨3, 7, false, 420⟩)]
      "r/b" ⟨3, 7, false, 420⟩
      (by decide) (by decide) (by decide)).1 "r/a" (by decide) (by decide)).1

/-- C2 counterexample. One previous path `r/a` was deleted while two new
paths `r/b` and `r/c` both carry its signature: Diff emits two move events
that both consume previous path `r/a`. -/
theorem diff_double_consume_cex :
    Diff 100 "r" [("r/a", ⟨3, 7, false, 420⟩)]
        [("r/b", ⟨3, 7, false, 420⟩), ("r/c", ⟨3, 7, false, 420⟩)] =
      [{ path := "r/b", relPath := "b", prevPath := "r/a", type := "move",
         info := ⟨3, 7, false, 420⟩, ageNs := 93 },
       { path := "r/c", relPath := "c", prevPath := "r/a", type := "move",
         info := ⟨3, 7, false, 420⟩, ageNs := 93 }] := by
  decide

/-- C2 (amended): every current-only path whose signature resolves (in the
signature table) to a given previous path produces its own move event with
that previous path as PrevPath — the table entry is not consumed, so one
previous path can appear as PrevPath of several distinct move events. -/
theorem diff_moves_shared_prevPath (now : Int) (root : String)
    (prev curr : Snapshot) (p1 p2 q : String) (i1 i2 : FileInfo)
    (h1 : (p1, i1) ∈ curr) (h2 : (p2, i2) ∈ curr) (h12 : p1 ≠ p2)
    (hp1 : lookupA prev p1 = none) (hp2 : lookupA prev p2 = none)
    (hs1 : lookupA (sigTable prev) (signature i1) = some q)
    (hs2 : lookupA (sigTable prev) (signature i2) = some q)
    (hq1 : q ≠ p1) (hq2 : q ≠ p2) :
    mkMove now root p1 q i1 ∈ Diff now root prev curr ∧
    mkMove now root p2 q i2 ∈ Diff now root prev curr ∧
    mkMove now root p1 q i1 ≠ mkMove now root p2 q i2 := by
  refine ⟨?_, ?_, ?_⟩
  · rw [Diff_eq]
    exact List.mem_append_left _ (List.mem_append_left _
      (List.mem_append_right _ (mem_movesOf_intro h1 hp1 hs1 hq1)))
  · rw [Diff_eq]
    exact List.mem_append_left _ (List.mem_append_left _
      (List.mem_append_right _ (mem_movesOf_intro h2 hp2 hs2 hq2)))
  · intro h
    exact h12 (congrArg Event.path h)

/-- Witness for C2 (amended) at the counterexample input. -/
theorem diff_moves_shared_prevPath_witness :
    mkMove 100 "r" "r/b" "r/a" ⟨3, 7, false, 420⟩ ∈
      Diff 100 "r" [("r/a", ⟨3, 7, false, 420⟩)]
        [("r/b", ⟨3, 7, false, 420⟩), ("r/c", ⟨3, 7, false, 420⟩)] ∧
    mkMove 100 "r" "r/c" "r/a" ⟨3, 7, false, 420⟩ ∈
      Diff 100 "r" [("r/a", ⟨3, 7, false, 420⟩)]
        [("r/b", ⟨3, 7, false, 420⟩), ("r/c", ⟨3, 7, false, 420⟩)] := by
  have h := diff_moves_shared_prevPath 100 "r"
    [("r/a", ⟨3, 7, false, 420⟩)]
    [("r/b", ⟨3, 7, false, 420⟩), ("r/c", ⟨3, 7, false, 420⟩)]
    "r/b" "r/c" "r/a" ⟨3, 7, false, 420⟩ ⟨3, 7, false, 420⟩
    (by decide) (by decide) (by decide) (by decide) (by decide)
    (by decide) (by decide) (by decide) (by decide)
  exact ⟨h.1, h.2.1⟩

/-- C4: when both snapshots hold the same paths and the records agree on
size, modification time and mode for every path, Diff returns no events. -/
theorem diff_unchanged_empty (now : Int) (root : String) (prev curr : Snapshot)
    (h1 : ∀ pi ∈ prev, (lookupA curr pi.1).isSome = true)
    (h2 : ∀ pi ∈ curr, ∃ j, lookupA prev pi.1 = some j ∧
            j.size = pi.2.size ∧ j.modTimeNs = pi.2.modTimeNs ∧
            j.mode = pi.2.mode) :
    Diff now root prev curr = [] := by
  rw [Diff_eq]
  have hdel : deletesOf root prev curr = [] := by
    rw [deletesOf, List.filterMap_eq_nil_iff]
    intro pi hpi
    simp [h1 pi hpi]
  have hmods : modsOf now root prev curr = [] := by
    rw [modsOf, List.filterMap_eq_nil_iff]
    intro pi hpi
    obtain ⟨j, hj, hs, hm, hmo⟩ := h2 pi hpi
    simp [hj, hasChanged, hs, hm, hmo]
  have hmoves : movesOf now root prev (sigTable prev) curr = [] := by
    rw [movesOf, List.filterMap_eq_nil_iff]
    intro pi hpi
    obtain ⟨j, hj, -, -, -⟩ := h2 pi hpi
    simp [hj]
  have hcreates : createsOf now root prev (sigTable prev) curr = [] := by
    rw [createsOf, List.filterMap_eq_nil_iff]
    intro pi hpi
    obtain ⟨j, hj, -, -, -⟩ := h2 pi hpi
    simp [hj]
  rw [hdel, hmods, hmoves, hcreates, delsAfter_nil]
  rfl

/-- C3 counterexample. Debounce window 10: path p last triggered at t = 0; a
delete for p arrives at t = 5 and is itself debounced, leaving the stale
entry (p, 0) in the table; a create for p at t = 7 is then suppressed based
on the timestamp recorded before the delete. -/
theorem debounce_stale_delete_cex :
    handleEventDebounce 10 5 [("p", 0)]
      { path := "p", relPath := "p", prevPath := "", type := "delete",
        info := ⟨1, 2, false, 420⟩, ageNs := 0 } = (false, [("p", 0)]) ∧
    (handleEventDebounce 10 7 [("p", 0)]
      { path := "p", relPath := "p", prevPath := "", type := "create",
        info := ⟨1, 2, false, 420⟩, ageNs := 5 }).1 = false := by
  decide

/-- C3 (amended): a delete event clears its path's debounce entry whenever
the delete itself survives the debounce check (no window, no prior entry, or
outside the window); a delete that arrives within the window of the previous
trigger is itself suppressed and leaves the entry — and the map — unchanged. -/
theorem handleEvent_delete_clears (debounceNs nowNs : Int)
    (m : List (String × Int)) (ev : Event)
    (hdel : ev.type = "delete") :
    ((0 < debounceNs → ∀ last, lookupA m ev.path = some last →
        debounceNs ≤ nowNs - last) →
      (handleEventDebounce debounceNs nowNs m ev).1 = true ∧
      lookupA (handleEventDebounce debounceNs nowNs m ev).2 ev.path = none) ∧
    (∀ last, 0 < debounceNs → lookupA m ev.path = some last →
        nowNs - last < debounceNs →
      handleEventDebounce debounceNs nowNs m ev = (false, m)) := by
  constructor
  · intro hsafe
    by_cases hpos : 0 < debounceNs
    · cases hl : lookupA m ev.path with
      | some last =>
        have hnl : ¬ nowNs - last < debounceNs := not_lt.mpr (hsafe hpos last hl)
        simp [handleEventDebounce, hpos, hl, hnl, debClear, hdel,
          lookupA_eraseKeyA_self]
      | none =>
        simp [handleEventDebounce, hpos, hl, debClear, hdel,
          lookupA_eraseKeyA_self]
    · simp [handleEventDebounce, hpos, debClear, hdel, lookupA_eraseKeyA_self]
  · intro last hpos hl hlt
    simp [handleEventDebounce, hpos, hl, hlt]

/-- Witness for C3 (amended): a delete outside the window clears the entry. -/
theorem handleEvent_delete_clears_witness :
    (handleEventDebounce 10 20 [("p", 0)]
      { path := "p", relPath := "p", prevPath := "", type := "delete",
        info := ⟨1, 2, false, 420⟩, ageNs := 0 }).1 = true ∧
    lookupA (handleEventDebounce 10 20 [("p", 0)]
      { path := "p", relPath := "p", prevPath := "", type := "delete",
        info := ⟨1, 2, false, 420⟩, ageNs := 0 }).2 "p" = none :=
  (handleEvent_delete_clears 10 20 [("p", 0)]
      { path := "p", relPath := "p", prevPath := "", type := "delete",
        info := ⟨1, 2, false, 420⟩, ageNs := 0 } rfl).1
    (by
      intro _ last hl
      simp [lookupA] at hl
      omega)

/-- Witness for C4 at a concrete unchanged snapshot pair. -/
theorem diff_unchanged_empty_witness :
    Diff 50 "r" [("r/a", ⟨3, 7, false, 420⟩)] [("r/a", ⟨3, 7, false, 420⟩)] = [] :=
  diff_unchanged_empty 50 "r" [("r/a", ⟨3, 7, false, 420⟩)]
    [("r/a", ⟨3, 7, false, 420⟩)]
    (by decide)
    (by
      intro pi hpi
      rw [List.mem_singleton] at hpi
      subst hpi
      exact ⟨⟨3, 7, false, 420⟩, rfl, rfl, rfl, rfl⟩)

theorem lookupA_update_self {α β : Type} [DecidableEq α]
    (m : List (α × β)) (k : α) (v : β) (h : (lookupA m k).isSome = true) :
    lookupA (m.map (fun kv => if kv.1 = k then (kv.1, v) else kv)) k = some v := by
  induction m with
  | nil => simp [lookupA] at h
  | cons hd tl ih =>
    by_cases hk : hd.1 = k
    · simp [lookupA, hk]
    · simp [lookupA, hk] at h ⊢
      exact ih h

theorem lookupA_append_single_self {α β : Type} [DecidableEq α]
    (m : List (α × β)) (k : α) (v : β) (h : lookupA m k = none) :
    lookupA (m ++ [(k, v)]) k = some v := by
  induction m with
  | nil => simp [lookupA]
  | cons hd tl ih =>
    by_cases hk : hd.1 = k
    · simp [lookupA, hk] at h
    · simp [lookupA, hk] at h ⊢
      exact ih h

theorem lookupA_insertA_self {α β : Type} [DecidableEq α]
    (m : List (α × β)) (k : α) (v : β) :
    lookupA (insertA m k v) k = some v := by
  rw [insertA]
  by_cases h : (lookupA m k).isSome
  · rw [if_pos h]
    exact lookupA_update_self m k v h
  · rw [if_neg h]
    exact lookupA_append_single_self m k v (Option.not_isSome_iff_eq_none.mp h)

theorem lookupA_update_ne {α β : Type} [DecidableEq α]
    (m : List (α × β)) (k k' : α) (v : β) (hne : k' ≠ k) :
    lookupA (m.map (fun kv => if kv.1 = k then (kv.1, v) else kv)) k' =
      lookupA m k' := by
  induction m with
  | nil => rfl
  | cons hd tl ih =>
    by_cases hk : hd.1 = k
    · simp [lookupA, hk, Ne.symm hne]
      exact ih
    · by_cases hk2 : hd.1 = k'
      · simp [lookupA, hk, hk2, hne]
      · simp [lookupA, hk, hk2]
        exact ih

theorem lookupA_append_single_ne {α β : Type} [DecidableEq α]
    (m : List (α × β)) (k k' : α) (v : β) (hne : k' ≠ k) :
    lookupA (m ++ [(k, v)]) k' = lookupA m k' := by
  induction m with
  | nil => simp [lookupA, Ne.symm hne]
  | cons hd tl ih =>
    by_cases hk2 : hd.1 = k'
    · simp [lookupA, hk2]
    · simp [lookupA, hk2]
      exact ih

theorem lookupA_insertA_ne {α β : Type} [DecidableEq α]
    (m : List (α × β)) (k k' : α) (v : β) (hne : k' ≠ k) :
    lookupA (insertA m k v) k' = lookupA m k' := by
  rw [insertA]
  by_cases h : (lookupA m k).isSome
  · rw [if_pos h]
    exact lookupA_update_ne m k k' v hne
  · rw [if_neg h]
    exact lookupA_append_single_ne m k k' v hne

theorem mkdirAll_noFiles (fs : FS) (d : FPath)
    (h : ∀ q ∈ ancestors d, lookupA fs.files q = none) :
    mkdirAll fs d = ({ fs with dirs := fs.dirs ++ ancestors d }, none) := by
  rw [mkdirAll, if_neg]
  intro hc
  rw [List.any_eq_true] at hc
  obtain ⟨q, hq, hs⟩ := hc
  rw [h q hq] at hs
  cases hs

theorem not_mem_ancestors_parentDir (p : FPath) : p ∉ ancestors (parentDir p) := by
  intro h
  obtain ⟨n, hn, hq⟩ := List.mem_map.mp h
  rw [List.mem_range] at hn
  have hlen := congrArg List.length hq
  rw [List.length_take] at hlen
  rw [parentDir, List.length_dropLast] at hn hlen
  omega

theorem statExists_false_parts {fs : FS} {p : FPath}
    (h : statExists fs p = false) :
    lookupA fs.files p = none ∧ p ∉ fs.dirs := by
  rw [statExists, Bool.or_eq_false_iff] at h
  exact ⟨Option.not_isSome_iff_eq_none.mp (by rw [h.1]; exact Bool.false_ne_true),
    of_decide_eq_false h.2⟩

theorem execLoop_attempts_le {σ : Type} (run : Nat → σ → σ × Option String) :
    ∀ (fuel attempt : Nat) (s : σ) (le : Option String),
      (execLoop run attempt fuel s le).2.1 ≤ attempt + fuel := by
  intro fuel
  induction fuel with
  | zero => intro attempt s le; simp [execLoop]
  | succ n ih =>
    intro attempt s le
    rw [execLoop]
    cases hr : run attempt s with
    | mk s1 e =>
      cases e with
      | some err =>
        have := ih (attempt + 1) s1 (some err)
        simp only []
        omega
      | none => simp

theorem execLoop_success_at (f : Nat → Option String) :
    ∀ (fuel i attempt : Nat) (le : Option String),
      i < fuel → (∀ k, k < i → (f (attempt + k)).isSome) →
      f (attempt + i) = none →
      execLoop (fun k (_ : Unit) => ((), f k)) attempt fuel () le =
        ((), attempt + i + 1, none) := by
  intro fuel
  induction fuel with
  | zero => intro i attempt le h _ _; exact absurd h (Nat.not_lt_zero i)
  | succ n ih =>
    intro i attempt le hif hprev hsucc
    rw [execLoop]
    cases i with
    | zero =>
      rw [Nat.add_zero] at hsucc
      simp [hsucc]
    | succ j =>
      have h0 : (f attempt).isSome := by
        have := hprev 0 (Nat.succ_pos j)
        simpa using this
      obtain ⟨e, he⟩ := Option.isSome_iff_exists.mp h0
      simp only [he]
      have harg : ∀ k, k < j → (f (attempt + 1 + k)).isSome := by
        intro k hk
        have := hprev (k + 1) (by omega)
        rw [show attempt + (k + 1) = attempt + 1 + k from by omega] at this
        exact this
      have hsucc1 : f (attempt + 1 + j) = none := by
        rw [show attempt + 1 + j = attempt + (j + 1) from by omega]
        exact hsucc
      have := ih j (attempt + 1) (some e) (by omega) harg hsucc1
      rw [this]
      congr 2
      omega

theorem execLoop_all_fail (f : Nat → Option String) :
    ∀ (fuel attempt : Nat) (le : Option String), 0 < fuel →
      (∀ k, k < fuel → (f (attempt + k)).isSome) →
      execLoop (fun k (_ : Unit) => ((), f k)) attempt fuel () le =
        ((), attempt + fuel, f (attempt + fuel - 1)) := by
  intro fuel
  induction fuel with
  | zero => intro attempt le h _; exact absurd h (Nat.lt_irrefl 0)
  | succ n ih =>
    intro attempt le _ hall
    have h0 : (f attempt).isSome := by
      have := hall 0 (Nat.succ_pos n)
      simpa using this
    obtain ⟨e, he⟩ := Option.isSome_iff_exists.mp h0
    rw [execLoop]
    simp only [he]
    cases n with
    | zero =>
      rw [execLoop]
      simp [he]
    | succ m =>
      have harg : ∀ k, k < m + 1 → (f (attempt + 1 + k)).isSome := by
        intro k hk
        have := hall (k + 1) (by omega)
        rw [show attempt + (k + 1) = attempt + 1 + k from by omega] at this
        exact this
      have := ih (attempt + 1) (some e) (Nat.succ_pos m) harg
      rw [this]
      rw [show attempt + 1 + (m + 1) = attempt + (m + 1 + 1) from by omega]

theorem copyFile_destExists (fs : FS) (src dest : FPath)
    (hex : statExists fs dest = true) :
    copyFile fs src dest false = (fs, some "dest exists") := by
  have hcond : (!false && statExists fs dest) = true := by rw [hex]; rfl
  rw [copyFile, if_pos hcond]

theorem copyFile_success (fs : FS) (src dest : FPath) (ow : Bool) (c : List Nat)
    (hnc : statExists fs dest = false ∨ ow = true)
    (hsrc : lookupA fs.files src = some c)
    (hanc : ∀ q ∈ ancestors (parentDir dest), lookupA fs.files q = none)
    (hdd : dest ∉ fs.dirs) :
    copyFile fs src dest ow =
      (setFile { fs with dirs := fs.dirs ++ ancestors (parentDir dest) } dest c,
       none) := by
  have hcond : ¬ ((!ow && statExists fs dest) = true) := by
    rcases hnc with h | h
    · rw [h, Bool.and_false]; exact Bool.false_ne_true
    · rw [h]; simp
  have hmk := mkdirAll_noFiles fs (parentDir dest) hanc
  have hdest1 : dest ∉ fs.dirs ++ ancestors (parentDir dest) := by
    rw [List.mem_append]
    rintro (h | h)
    · exact hdd h
    · exact not_mem_ancestors_parentDir dest h
  rw [copyFile, if_neg hcond, hmk]
  simp [createFile, hsrc, hdest1]

/-! Claims C5-C8 about the Executor and the copy/move runners. -/

/-- C5: Execute makes at most 1 + retries attempts; a first success at
attempt i (after failures on 0..i-1) stops the loop with success after i + 1
attempts; if every attempt in the budget fails, the outcome is the last
attempt's error after retries + 1 attempts; and an action failing on attempts
0..N-1 then succeeding from attempt N on yields success iff retries ≥ N. -/
theorem executor_retry_semantics (f : Nat → Option String) (retries : Nat) :
    (Execute false (fun k (_ : Unit) => ((), f k)) retries ()).2.1 ≤ retries + 1 ∧
    (∀ i, i ≤ retries → (∀ k, k < i → (f k).isSome) → f i = none →
      Execute false (fun k (_ : Unit) => ((), f k)) retries () =
        ((), i + 1, none)) ∧
    ((∀ i, i ≤ retries → (f i).isSome) →
      Execute false (fun k (_ : Unit) => ((), f k)) retries () =
        ((), retries + 1, f retries)) ∧
    (∀ N, (∀ k, f k = none ↔ N ≤ k) →
      ((Execute false (fun k (_ : Unit) => ((), f k)) retries ()).2.2 = none ↔
        N ≤ retries)) := by
  have hexec : Execute false (fun k (_ : Unit) => ((), f k)) retries () =
      execLoop (fun k (_ : Unit) => ((), f k)) 0 (retries + 1) () none := rfl
  refine ⟨?_, ?_, ?_, ?_⟩
  · rw [hexec]
    have h := execLoop_attempts_le (fun k (_ : Unit) => ((), f k)) (retries + 1) 0 () none
    simpa using h
  · intro i hi hprev hsucc
    rw [hexec]
    have h := execLoop_success_at f (retries + 1) i 0 none (by omega)
      (by intro k hk; simpa using hprev k hk) (by simpa using hsucc)
    simpa using h
  · intro hall
    rw [hexec]
    have h := execLoop_all_fail f (retries + 1) 0 none (Nat.succ_pos retries)
      (by intro k hk; simpa using hall k (by omega))
    simpa using h
  · intro N hN
    constructor
    · intro hnone
      by_contra hgt
      rw [not_le] at hgt
      have hall : ∀ k, k < retries + 1 → (f (0 + k)).isSome := by
        intro k hk
        rw [Nat.zero_add]
        refine Option.ne_none_iff_isSome.mp (fun hc => ?_)
        have := (hN k).mp hc
        omega
      have h := execLoop_all_fail f (retries + 1) 0 none (Nat.succ_pos retries) hall
      rw [hexec, h] at hnone
      simp at hnone
      have := (hN retries).mp hnone
      omega
    · intro hle
      have hsucc : f (0 + N) = none := by
        rw [Nat.zero_add]; exact (hN N).mpr le_rfl
      have hprev : ∀ k, k < N → (f (0 + k)).isSome := by
        intro k hk
        rw [Nat.zero_add]
        refine Option.ne_none_iff_isSome.mp (fun hc => ?_)
        have := (hN k).mp hc
        omega
      have h := execLoop_success_at f (retries + 1) N 0 none (by omega) hprev hsucc
      rw [hexec, h]

/-- Witness for C5: two failures then success, with 3 retries allowed, ends
in success after 3 attempts. -/
theorem executor_retry_semantics_witness :
    Execute false (fun k (_ : Unit) =>
        ((), if k < 2 then some "boom" else none)) 3 () = ((), 3, none) :=
  (executor_retry_semantics (fun k => if k < 2 then some "boom" else none) 3).2.1
    2 (by omega) (by intro k hk; simp [hk]) (by simp)

/-- C6: with dry-run enabled, Execute returns success immediately: the runner
is never invoked (zero attempts consumed) and the threaded state — for a copy
action, the filesystem with its files and directory tree — is unchanged. -/
theorem execute_dryRun_frame (env : FsEnv) (evPath : FPath) (evRel : String)
    (destTmpl : FPath) (ow : Option Bool) (retries : Nat) (fs : FS) :
    Execute true
        (fun _ s => copyMoveRun ActionType.copy env evPath evRel destTmpl ow s)
        retries fs = (fs, 0, none) ∧
    ∀ (σ : Type) (run : Nat → σ → σ × Option String) (s : σ),
      Execute true run retries s = (s, 0, none) :=
  ⟨rfl, fun _ _ _ => rfl⟩

/-- C7: a copy whose destination exists with overwrite disabled fails leaving
the filesystem — destination content and directory tree — untouched; when the
destination does not exist or overwrite is allowed, the copy creates the
destination's parent directories, writes the source's bytes at the
destination, and touches no other file. -/
theorem copyFile_semantics (fs : FS) (src dest : FPath) (ow : Bool) (c : List Nat) :
    (ow = false → statExists fs dest = true →
      copyFile fs src dest ow = (fs, some "dest exists")) ∧
    ((statExists fs dest = false ∨ ow = true) →
      lookupA fs.files src = some c →
      (∀ q ∈ ancestors (parentDir dest), lookupA fs.files q = none) →
      dest ∉ fs.dirs →
      ∃ fs1, copyFile fs src dest ow = (fs1, none) ∧
        lookupA fs1.files dest = some c ∧
        (∀ q ∈ ancestors (parentDir dest), q ∈ fs1.dirs) ∧
        (∀ r, r ≠ dest → lookupA fs1.files r = lookupA fs.files r)) := by
  constructor
  · intro how hex
    rw [how]
    exact copyFile_destExists fs src dest hex
  · intro hnc hsrc hanc hdd
    refine ⟨setFile { fs with dirs := fs.dirs ++ ancestors (parentDir dest) } dest c,
      copyFile_success fs src dest ow c hnc hsrc hanc hdd, ?_, ?_, ?_⟩
    · exact lookupA_insertA_self _ dest c
    · intro q hq
      exact List.mem_append_right _ hq
    · intro r hr
      exact lookupA_insertA_ne _ dest r c hr

/-- Witness for C7: the failure branch at an existing destination, and the
success branch at a fresh destination path. -/
theorem copyFile_semantics_witness :
    copyFile ⟨[(["s"], [9]), (["d"], [0])], []⟩ ["s"] ["d"] false =
      (⟨[(["s"], [9]), (["d"], [0])], []⟩, some "dest exists") ∧
    ∃ fs1, copyFile ⟨[(["s"], [9])], []⟩ ["s"] ["d", "out"] false = (fs1, none) ∧
      lookupA fs1.files ["d", "out"] = some [9] ∧
      (∀ q ∈ ancestors (parentDir ["d", "out"]), q ∈ fs1.dirs) ∧
      (∀ r, r ≠ ["d", "out"] →
        lookupA fs1.files r = lookupA (FS.mk [(["s"], [9])] []).files r) :=
  ⟨(copyFile_semantics ⟨[(["s"], [9]), (["d"], [0])], []⟩ ["s"] ["d"] false [9]).1
      rfl (by decide),
   (copyFile_semantics ⟨[(["s"], [9])], []⟩ ["s"] ["d", "out"] false [9]).2
      (Or.inl (by decide)) (by decide) (by decide) (by decide)⟩

/-- C8: when the atomic rename fails (environment oracle), the fallback copy
succeeds, and the delete-source step fails, moveFile reports the delete error
as its outcome while the source file remains in place next to the new copy. -/
theorem moveFile_fallback_delete_failure (env : FsEnv) (fs : FS)
    (src dest : FPath) (ow : Bool) (c : List Nat) (re de : String)
    (hre : env.renameErr = some re)
    (hde : env.removeErr = some de)
    (hex : statExists fs dest = false)
    (hsrc : lookupA fs.files src = some c)
    (hanc : ∀ q ∈ ancestors (parentDir dest), lookupA fs.files q = none)
    (hdd : dest ∉ fs.dirs) :
    ∃ fs2, moveFile env fs src dest ow = (fs2, some de) ∧
      lookupA fs2.files src = some c ∧
      lookupA fs2.files dest = some c := by
  obtain ⟨hdn, -⟩ := statExists_false_parts hex
  have hsd : src ≠ dest := by
    intro h; rw [h, hdn] at hsrc; cases hsrc
  have hcond : ¬ ((!ow && statExists fs dest) = true) := by
    rw [hex, Bool.and_false]; exact Bool.false_ne_true
  have hmk := mkdirAll_noFiles fs (parentDir dest) hanc
  have hdest1 : dest ∉ fs.dirs ++ ancestors (parentDir dest) := by
    rw [List.mem_append]
    rintro (h | h)
    · exact hdd h
    · exact not_mem_ancestors_parentDir dest h
  have hex1 : statExists
      ({ fs with dirs := fs.dirs ++ ancestors (parentDir dest) } : FS) dest
      = false := by
    simp [statExists, hdn, hdest1]
  have hcopy := copyFile_success
    ({ fs with dirs := fs.dirs ++ ancestors (parentDir dest) } : FS)
    src dest ow c (Or.inl hex1) hsrc hanc
    (by
      intro h
      rcases List.mem_append.mp h with h | h
      · exact hdd h
      · exact not_mem_ancestors_parentDir dest h)
  refine ⟨setFile
      { fs with dirs := (fs.dirs ++ ancestors (parentDir dest)) ++
          ancestors (parentDir dest) } dest c, ?_, ?_, ?_⟩
  · rw [moveFile, if_neg hcond, hmk]
    simp only [renameFile, hre]
    rw [hcopy]
    simp only [removeFile, hde]
  · exact (lookupA_insertA_ne _ dest src c hsd).trans hsrc
  · exact lookupA_insertA_self _ dest c

/-- Witness for C8 at a concrete filesystem and failing-oracle environment. -/
theorem moveFile_fallback_delete_failure_witness :
    ∃ fs2, moveFile ⟨some "cross-device", some "perm"⟩
        ⟨[(["s"], [9])], []⟩ ["s"] ["d", "out"] false = (fs2, some "perm") ∧
      lookupA fs2.files ["s"] = some [9] ∧
      lookupA fs2.files ["d", "out"] = some [9] :=
  moveFile_fallback_delete_failure ⟨some "cross-device", some "perm"⟩
    ⟨[(["s"], [9])], []⟩ ["s"] ["d", "out"] false [9] "cross-device" "perm"
    rfl rfl (by decide) (by decide) (by decide) (by decide)

theorem matchLoop_eq (pm : String → String → Bool) (ev : Event) (stop : Bool) :
    ∀ l : List Action,
      matchLoop pm ev stop l =
        (if stop then (l.filter (actionPasses pm ev)).take 1
         else l.filter (actionPasses pm ev)) := by
  intro l
  induction l with
  | nil => cases stop <;> simp [matchLoop]
  | cons a rest ih =>
    by_cases h1 : eventAllowed ev a
    · by_cases h2 : matchesInclude pm a ev.relPath
      · by_cases h3 : matchesExclude pm a ev.relPath
        · have hpass : actionPasses pm ev a = false := by
            simp [actionPasses, h3]
          cases stop <;> simp [matchLoop, h1, h2, h3, hpass, ih]
        · by_cases h4 : conditionsPass ev a.condition
          · have hpass : actionPasses pm ev a = true := by
              simp [actionPasses, h1, h2, h3, h4]
            cases stop <;> simp [matchLoop, h1, h2, h3, h4, hpass, ih]
          · have hpass : actionPasses pm ev a = false := by
              simp [actionPasses, h4]
            cases stop <;> simp [matchLoop, h1, h2, h3, h4, hpass, ih]
      · have hpass : actionPasses pm ev a = false := by
          simp [actionPasses, h2]
        cases stop <;> simp [matchLoop, h1, h2, hpass, ih]
    · have hpass : actionPasses pm ev a = false := by
        simp [actionPasses, h1]
      cases stop <;> simp [matchLoop, h1, hpass, ih]

/-- C9: with stop-on-first-match, Match returns the first passing action as a
one-element list (empty when none passes); without it, Match returns exactly
the subsequence of passing actions in configured order. -/
theorem match_stop_semantics (pm : String → String → Bool) (ev : Event)
    (w : Watch) :
    Match pm ev w =
      (if w.stopOnFirstMatch then
        (w.actions.filter (actionPasses pm ev)).take 1
       else w.actions.filter (actionPasses pm ev)) := by
  rw [Match, matchLoop_eq]

/-- C10: zero-valued numeric and age bounds are unset: an event of any size
and any age passes the condition checks whenever the file/dir flags agree and
the hidden-path rule does not fire; only strictly positive bounds filter. -/
theorem conditionsPass_zero_bounds (ev : Event) (c : Condition)
    (h1 : c.minSizeBytes = 0) (h2 : c.maxSizeBytes = 0)
    (h3 : c.minAgeMs = 0) (h4 : c.maxAgeMs = 0)
    (h5 : c.onlyFiles = true → ev.info.isDir = false)
    (h6 : c.onlyDirs = true → ev.info.isDir = true)
    (h7 : c.ignoreHidden = some true → isHidden ev.relPath = false) :
    conditionsPass ev c = true := by
  rw [conditionsPass, h1, h2, h3, h4]
  have hno1 : ¬ (c.onlyFiles = true ∧ ev.info.isDir = true) := by
    rintro ⟨ha, hb⟩
    rw [h5 ha] at hb
    cases hb
  have hno2 : ¬ (c.onlyDirs = true ∧ ¬ ev.info.isDir = true) := by
    rintro ⟨ha, hb⟩
    exact hb (h6 ha)
  rw [if_neg (by simp [millisToNs]), if_neg (by simp [millisToNs]),
    if_neg (by simp [millisToNs]), if_neg (by simp [millisToNs]),
    if_neg hno1, if_neg hno2]
  by_cases hih : c.ignoreHidden = some true
  · rw [if_pos hih, h7 hih]
    rfl
  · rw [if_neg hih]

/-- Witness for C10: a positive-size, positive-age file event passes a
condition whose bounds are all zero and whose hidden rule is enabled. -/
theorem conditionsPass_zero_bounds_witness :
    conditionsPass
      { path := "/r/a/b.txt", relPath := "a/b.txt", prevPath := "",
        type := "create", info := ⟨100, 7, false, 420⟩, ageNs := 5 }
      ⟨0, 0, 0, 0, false, false, some true⟩ = true :=
  conditionsPass_zero_bounds
    { path := "/r/a/b.txt", relPath := "a/b.txt", prevPath := "",
      type := "create", info := ⟨100, 7, false, 420⟩, ageNs := 5 }
    ⟨0, 0, 0, 0, false, false, some true⟩
    rfl rfl rfl rfl (by decide) (by decide) (by decide)

end WatcherCli
